import Mathlib

/-!
Verification of the hostile-actor decision engine and the input/interaction
state machine of the dungeon-crawler repository.

The definitions below are shallow embeddings of:
  * components/ai.py   (BaseAI.get_path_to, HostileEnemy.perform, ConfusedEnemy.perform)
  * input_handlers.py  (EventHandler.handle_events / handle_action,
                        SelectIndexHandler.ev_keydown, InventoryEventHandler.ev_keydown,
                        HistoryViewer.__init__ / ev_keydown)
Positions and deltas are Python ints, embedded as Lean Int.  The numpy cost
array in get_path_to has dtype int8; its wrap-around is made explicit.
-/

namespace Dangen

/-- A grid cell, the pair (x, y) of Python ints. -/
abbrev Cell := Int × Int

/-- The game actions an AI turn can execute (actions.py collaborators:
only their identity and arguments matter to the AI control flow). -/
inductive GAction where
  | melee (dx dy : Int)
  | move (dx dy : Int)
  | waitTurn
  | bump (dx dy : Int)
  deriving DecidableEq

/-- Discriminator: is this a melee attack? -/
def GAction.isMelee : GAction → Bool
  | .melee _ _ => true
  | _ => false

/-- State read and written by HostileEnemy.perform: the enemy position
(self.entity), the player position (engine.player), the visibility flag
game_map.visible[entity.x, entity.y], and the cached self.path. -/
structure HostileState where
  enemy : Cell
  player : Cell
  visible : Bool
  path : List Cell
  deriving DecidableEq

/-- Chebyshev distance from the enemy to the player, as computed in
HostileEnemy.perform: max(abs dx, abs dy). -/
def chebyshev (s : HostileState) : Nat :=
  max (s.player.1 - s.enemy.1).natAbs (s.player.2 - s.enemy.2).natAbs

/-- Embedding of HostileEnemy.perform (ai.py lines 54-74).  The path
planner is passed as a function argument (the method self.get_path_to).
Returns the executed action and the new cached path. -/
def hostilePerform (s : HostileState) (plan : Cell → Cell → List Cell) :
    GAction × List Cell :=
  let dx := s.player.1 - s.enemy.1
  let dy := s.player.2 - s.enemy.2
  let distance := max dx.natAbs dy.natAbs
  if s.visible = true ∧ distance ≤ 1 then
    (.melee dx dy, s.path)
  else
    let path := if s.visible then plan s.enemy s.player else s.path
    match path with
    | [] => (.waitTurn, [])
    | c :: rest => (.move (c.1 - s.enemy.1) (c.2 - s.enemy.2), rest)

/-! ## ConfusedEnemy (ai.py lines 77-117) -/

/-- The eight compass directions random.choice draws from in
ConfusedEnemy.perform, in source order: NW, N, NE, W, E, SW, S, SE. -/
def confusedDirections : List Cell :=
  [(-1, -1), (0, -1), (1, -1), (-1, 0), (1, 0), (-1, 1), (0, 1), (1, 1)]

/-- An actor's AI slot.  Non-confused strategies are tracked by an opaque
identity tag, standing for Python object identity; a ConfusedEnemy holds
the previous slot value (Optional[BaseAI]) and its remaining-turn counter. -/
inductive AISlot where
  | confused (previous : Option AISlot) (turns : Int)
  | strategy (id : Nat)

/-- The actor state touched by ConfusedEnemy.perform: name (used in the
expiry message), position, and the ai slot (entity.ai, an Optional). -/
structure CActor where
  name : String
  pos : Cell
  ai : Option AISlot

/-- The expiry message f-string of ConfusedEnemy.perform. -/
def confusionExpiryMsg (name : String) : String :=
  "The " ++ name ++ " is no longer confused."

/-- Result of one AI invocation: the updated actor, the message log, and
the action the turn executed (none when no action was performed). -/
structure TurnResult where
  actor : CActor
  log : List String
  acted : Option GAction

/-- Embedding of ConfusedEnemy.perform (ai.py lines 89-117) for an actor
whose slot is confused with the given previous slot and counter.
random.choice over the eight-element direction list is embedded as
indexing by a uniformly distributed index choice : Fin 8. -/
def confusedPerform (a : CActor) (previous : Option AISlot) (turns : Int)
    (log : List String) (choice : Fin 8) : TurnResult :=
  if turns ≤ 0 then
    { actor := { a with ai := previous },
      log := log ++ [confusionExpiryMsg a.name],
      acted := none }
  else
    let d := confusedDirections.getD choice.val (0, 0)
    { actor := { a with ai := some (.confused previous (turns - 1)) },
      log := log,
      acted := some (.bump d.1 d.2) }

/-- One scheduler step for an actor: run ConfusedEnemy.perform when the
slot holds a confused strategy, otherwise leave the actor alone (other
strategies are modelled elsewhere; only the confused slot matters here). -/
def aiStep (a : CActor) (log : List String) (choice : Fin 8) : TurnResult :=
  match a.ai with
  | some (.confused previous turns) => confusedPerform a previous turns log choice
  | _ => { actor := a, log := log, acted := none }

/-- Iterate aiStep k times, drawing the j-th random index from choices j. -/
def aiIter (choices : Nat → Fin 8) (a : CActor) (log : List String) :
    Nat → CActor × List String
  | 0 => (a, log)
  | k + 1 =>
    let p := aiIter choices a log k
    let r := aiStep p.1 p.2 (choices k)
    (r.actor, r.log)

/-! ## BaseAI.get_path_to (ai.py lines 19-46) -/

/-- The static game map consumed by the path planner: dimensions of the
tiles array and the per-cell "walkable" boolean. -/
structure GameMap where
  width : Nat
  height : Nat
  walkable : Cell → Bool

/-- An entity as seen by the cost loop of get_path_to: its position and
its blocks_movement flag. -/
structure PEntity where
  pos : Cell
  blocks : Bool
  deriving DecidableEq

/-- Wrap-around of the numpy int8 dtype used for the cost array. -/
def int8wrap (n : Int) : Int := (n + 128) % 256 - 128

/-- One iteration of the entity loop in get_path_to, viewed at a fixed
cell c: if the entity blocks movement, stands on c and the current cost
there is nonzero, add 10 (with int8 wrap-around); else leave the cost. -/
def costStep (c : Cell) (acc : Int) (e : PEntity) : Int :=
  if e.blocks = true ∧ e.pos = c ∧ acc ≠ 0 then int8wrap (acc + 10) else acc

/-- The cost array of get_path_to at cell c: initialised from the
walkable tiles (True becomes 1, False 0), then the entity loop. -/
def buildCost (gm : GameMap) (es : List PEntity) (c : Cell) : Int :=
  es.foldl (costStep c) (if gm.walkable c then 1 else 0)

/-- Number of movement-blocking entities standing on cell c. -/
def blockerCount (es : List PEntity) (c : Cell) : Nat :=
  es.countP (fun e => e.blocks && decide (e.pos = c))

/-- The cardinal edge cost passed to tcod.path.SimpleGraph. -/
def cardinalCost : Int := 2

/-- The diagonal edge cost passed to tcod.path.SimpleGraph. -/
def diagonalCost : Int := 3

/-- Cells the graph search may move to from c: the eight neighbours that
lie inside the cost array and have nonzero cost (SimpleGraph treats a
zero-cost cell as blocked). -/
def adjacentCells (gm : GameMap) (es : List PEntity) (c : Cell) : List Cell :=
  (confusedDirections.map (fun d => (c.1 + d.1, c.2 + d.2))).filter
    (fun n =>
      decide (0 ≤ n.1) && decide (n.1 < (gm.width : Int)) &&
      decide (0 ≤ n.2) && decide (n.2 < (gm.height : Int)) &&
      decide (buildCost gm es n ≠ 0))

/-- A list of cells each consecutive pair of which is an adjacency-graph
step. -/
def fwdChain (adj : Cell → List Cell) : List Cell → Prop
  | [] => True
  | [_] => True
  | a :: b :: t => b ∈ adj a ∧ fwdChain adj (b :: t)

instance fwdChainDecidable (adj : Cell → List Cell) :
    (l : List Cell) → Decidable (fwdChain adj l)
  | [] => isTrue trivial
  | [_] => isTrue trivial
  | a :: b :: t =>
    haveI : Decidable (fwdChain adj (b :: t)) := fwdChainDecidable adj (b :: t)
    inferInstanceAs (Decidable (b ∈ adj a ∧ fwdChain adj (b :: t)))

/-- Destination d can be reached from o along the adjacency graph. -/
def ReachableFrom (adj : Cell → List Cell) (o d : Cell) : Prop :=
  ∃ l : List Cell, fwdChain adj (o :: l) ∧ (o :: l).getLast? = some d

/-- Fuel-bounded breadth-first search over whole paths.  Each queue entry
is a forward path starting at the search root; when the entry's last cell
is the goal the entry is returned. -/
def bfsAux (adj : Cell → List Cell) (goal : Cell) :
    Nat → List (List Cell) → List Cell → Option (List Cell)
  | 0, _, _ => none
  | _ + 1, [], _ => none
  | fuel + 1, p :: queue, visited =>
    match p.getLast? with
    | none => bfsAux adj goal fuel queue visited
    | some c =>
      if c = goal then some p
      else if c ∈ visited then bfsAux adj goal fuel queue visited
      else bfsAux adj goal fuel
        (queue ++ (adj c).map (fun n => p ++ [n])) (c :: visited)

/-- Fuel bound for the search; only completeness, never soundness,
depends on it. -/
def searchFuel (gm : GameMap) : Nat := 8 * (8 * gm.width * gm.height + 8)

/-- Models the external tcod.path Pathfinder used by get_path_to (tcod is
an external collaborator, not repository code): pathfinder.path_to
returns the full cell sequence from the added root through the requested
destination inclusive when a route exists, and a single-cell sequence
when none does.  Only the sequence shape is relied upon; the weighted
search order of tcod is not modelled. -/
def pathfinderPathTo (gm : GameMap) (es : List PEntity) (origin dest : Cell) :
    List Cell :=
  match bfsAux (adjacentCells gm es) dest (searchFuel gm) [[origin]] [] with
  | some p => p
  | none => [dest]

/-- Embedding of BaseAI.get_path_to (ai.py lines 19-46): build the cost
array, run the pathfinder from the entity position, drop the starting
point ([1:]) and return the remaining cells. -/
def get_path_to (gm : GameMap) (es : List PEntity) (origin dest : Cell) :
    List Cell :=
  (pathfinderPathTo gm es origin dest).drop 1

/-! ## TurnDirector: EventHandler.handle_action / handle_events
(input_handlers.py lines 107-143).  Engine.handle_enemy_turns,
Engine.update_fov and MessageLog.add_message live in modules that are not
part of the analysed sources and are modelled from the spec. -/

/-- The engine state visible to handle_action / handle_events. -/
structure GEngine where
  messageLog : List String
  enemies : List Nat
  behaviorsRun : List Nat
  fovRefreshes : Nat
  playerAlive : Bool
  requiresLevelUp : Bool
  deriving DecidableEq

/-- Modelled from the spec: Engine.handle_enemy_turns (engine.py is not
among the sources) — "invokes every non-player actor's BehaviorStrategy
once"; recorded by appending every enemy id to behaviorsRun. -/
def handle_enemy_turns (e : GEngine) : GEngine :=
  { e with behaviorsRun := e.behaviorsRun ++ e.enemies }

/-- Modelled from the spec: Engine.update_fov — "triggers the visibility
recompute"; recorded by bumping the refresh counter. -/
def update_fov (e : GEngine) : GEngine :=
  { e with fovRefreshes := e.fovRefreshes + 1 }

/-- Modelled from the spec: MessageLog.add_message appends to the
append-only message log. -/
def add_message (e : GEngine) (m : String) : GEngine :=
  { e with messageLog := e.messageLog ++ [m] }

/-- A player action: executing it either fails with exceptions.Impossible
carrying a message (recoverable, raised by validation) or yields the
updated engine. -/
abbrev PlayerAction := GEngine → Except String GEngine

/-- Embedding of EventHandler.handle_action (input_handlers.py lines
126-143). -/
def handle_action (e : GEngine) (action : Option PlayerAction) :
    GEngine × Bool :=
  match action with
  | none => (e, false)
  | some act =>
    match act e with
    | .error msg => (add_message e msg, false)
    | .ok e' => (update_fov (handle_enemy_turns e'), true)

/-- The handler returned by EventHandler.handle_events after resolving an
action (unchanged models returning self). -/
inductive NextHandler where
  | mainGame
  | gameOver
  | levelUp
  | unchanged
  deriving DecidableEq

/-- Embedding of EventHandler.handle_events (input_handlers.py lines
111-124) for the case where dispatch produced an action (or None). -/
def handle_events (e : GEngine) (action : Option PlayerAction) :
    GEngine × NextHandler :=
  let r := handle_action e action
  if r.2 then
    if ¬ r.1.playerAlive then (r.1, .gameOver)
    else if r.1.requiresLevelUp then (r.1, .levelUp)
    else (r.1, .mainGame)
  else (r.1, .unchanged)

/-! ## HistoryViewer (input_handlers.py lines 549-599) -/

/-- Keys the history viewer reacts to; other stands for every remaining
key. -/
inductive HistKey where
  | up
  | down
  | pageup
  | pagedown
  | home
  | endKey
  | other
  deriving DecidableEq

/-- CURSOR_Y_KEYS (input_handlers.py lines 549-554). -/
def cursorAdjust : HistKey → Option Int
  | .up => some (-1)
  | .down => some 1
  | .pageup => some (-10)
  | .pagedown => some 10
  | _ => none

/-- HistoryViewer state: the captured log length and the cursor (Python
ints; the cursor can be -1 when the log is empty). -/
structure HistState where
  log_length : Int
  cursor : Int
  deriving DecidableEq

/-- Embedding of HistoryViewer.__init__ (lines 560-563). -/
def histInit (messages : List String) : HistState :=
  { log_length := messages.length, cursor := (messages.length : Int) - 1 }

/-- Embedding of HistoryViewer.ev_keydown (lines 585-599).  The boolean
is true exactly when the handler transitions to MainGameEventHandler. -/
def histKeydown (s : HistState) (k : HistKey) : HistState × Bool :=
  match cursorAdjust k with
  | some adjust =>
    if adjust < 0 ∧ s.cursor = 0 then
      ({ s with cursor := s.log_length - 1 }, false)
    else if adjust > 0 ∧ s.cursor = s.log_length - 1 then
      ({ s with cursor := 0 }, false)
    else
      ({ s with cursor := max 0 (min (s.cursor + adjust) (s.log_length - 1)) },
        false)
  | none =>
    if k = .home then ({ s with cursor := 0 }, false)
    else if k = .endKey then ({ s with cursor := s.log_length - 1 }, true)
    else (s, false)

/-- The message slice rendered by HistoryViewer.on_render (line 581),
messages[: cursor + 1], for the nonnegative slice bounds that occur. -/
def renderSlice (messages : List String) (cursor : Int) : List String :=
  messages.take (cursor + 1).toNat

/-- States the history viewer can reach from s0 by key presses. -/
inductive HistReach (s0 : HistState) : HistState → Prop
  | refl : HistReach s0 s0
  | step {s : HistState} {k : HistKey} :
      HistReach s0 s → HistReach s0 (histKeydown s k).1

/-! ## SelectIndexHandler.ev_keydown (input_handlers.py lines 404-427) -/

/-- Cursor state of the targeting handler: engine.mouse_location plus the
map dimensions used for clamping. -/
structure TargetState where
  mouse : Cell
  mapWidth : Int
  mapHeight : Int
  deriving DecidableEq

/-- The modifier accumulation of SelectIndexHandler.ev_keydown (lines
408-414): start at 1, times 5 while shift is held, times 10 while ctrl
is held, times 20 while alt is held. -/
def targetModifier (shift ctrl alt : Bool) : Int :=
  let m : Int := 1
  let m := if shift then m * 5 else m
  let m := if ctrl then m * 10 else m
  if alt then m * 20 else m

/-- Embedding of the move-key branch of SelectIndexHandler.ev_keydown
(lines 407-424): scale the unit delta by the modifier, then clamp each
axis into the map. -/
def selectIndexMove (s : TargetState) (dx dy : Int) (shift ctrl alt : Bool) :
    Cell :=
  let modifier := targetModifier shift ctrl alt
  let x := s.mouse.1 + dx * modifier
  let y := s.mouse.2 + dy * modifier
  (max 0 (min x (s.mapWidth - 1)), max 0 (min y (s.mapHeight - 1)))

/-! ## InventoryEventHandler.ev_keydown (input_handlers.py lines 344-356) -/

/-- Outcome of a key press in the inventory menu: an item was selected
and handed to on_item_selected; or the index was in range 0..26 but past
the inventory end (IndexError caught: "Invalid entry." is logged, None is
returned, the handler stays active and no state changes); or the default
AskUserEventHandler exit ran. -/
inductive InvOutcome (α : Type) where
  | selected (item : α)
  | invalidEntry
  | exitHandler
  deriving DecidableEq

/-- The tcod keycode of the letter a. -/
def K_a : Int := 97

/-- Embedding of InventoryEventHandler.ev_keydown (lines 344-356),
also returning the message log. -/
def inventoryKeydown {α : Type} (items : List α) (log : List String)
    (key : Int) : InvOutcome α × List String :=
  let index := key - K_a
  if 0 ≤ index ∧ index ≤ 26 then
    match items.get? index.toNat with
    | some it => (.selected it, log)
    | none => (.invalidEntry, log ++ ["Invalid entry."])
  else
    (.exitHandler, log)

/-! ## Concrete fixtures used by the witness theorems -/

/-- A fully walkable 2 by 1 map. -/
def testMap : GameMap := ⟨2, 1, fun _ => true⟩

/-- A 2 by 1 map whose cell (1, 0) is a wall. -/
def testMapWall : GameMap := ⟨2, 1, fun c => decide (c ≠ (1, 0))⟩

/-- A small engine state with two enemies. -/
def engine0 : GEngine := ⟨[], [1, 2], [], 0, true, false⟩

/-- A player action that always fails with Impossible. -/
def actFail : PlayerAction := fun _ => .error "Nothing here to pick up."

/-- A player action that succeeds without touching the engine. -/
def actOk : PlayerAction := fun e => .ok e

/-- An actor freshly confused for N turns over a present previous
strategy. -/
def confusedActor (name : String) (pos : Cell) (prev : AISlot) (N : Nat) :
    CActor :=
  ⟨name, pos, some (.confused (some prev) (N : Int))⟩

/-! ## Theorems -/

/-- Unfolded case form of hostilePerform. -/
lemma hostilePerform_eq (s : HostileState) (plan : Cell → Cell → List Cell) :
    hostilePerform s plan =
      if s.visible = true ∧ chebyshev s ≤ 1 then
        (.melee (s.player.1 - s.enemy.1) (s.player.2 - s.enemy.2), s.path)
      else
        match (if s.visible then plan s.enemy s.player else s.path) with
        | [] => (.waitTurn, [])
        | c :: rest => (.move (c.1 - s.enemy.1) (c.2 - s.enemy.2), rest) := rfl

/-- C1 counterexample: an adjacent hostile actor standing on a
non-visible tile waits (or follows its cached path) instead of attacking;
the melee attack is not performed "regardless of visibility". -/
theorem C1_hostile_melee_counterexample :
    chebyshev ⟨(0, 0), (0, 1), false, []⟩ = 1 ∧
    (hostilePerform ⟨(0, 0), (0, 1), false, []⟩ (fun _ _ => [])).1 =
      GAction.waitTurn ∧
    (hostilePerform ⟨(0, 0), (0, 1), false, []⟩
        (fun _ _ => [])).1.isMelee = false := by
  decide

/-- C1 (amended): on a Hostile-pursuit turn the strategy computes the
Chebyshev distance max(abs dx, abs dy) to the player and performs the
melee attack on the player exactly when the actor's tile is visible and
that distance is at most 1; the attack delta is the player position minus
the actor position and the cached path is left unchanged. -/
theorem C1_hostile_melee_amended (s : HostileState)
    (plan : Cell → Cell → List Cell) :
    ((hostilePerform s plan).1.isMelee = true ↔
      s.visible = true ∧ chebyshev s ≤ 1) ∧
    (s.visible = true → chebyshev s ≤ 1 →
      hostilePerform s plan =
        (.melee (s.player.1 - s.enemy.1) (s.player.2 - s.enemy.2), s.path)) := by
  rw [hostilePerform_eq]
  by_cases h : s.visible = true ∧ chebyshev s ≤ 1
  · rw [if_pos h]
    exact ⟨by simp [GAction.isMelee, h], fun _ _ => rfl⟩
  · rw [if_neg h]
    constructor
    · cases hp : (if s.visible then plan s.enemy s.player else s.path) with
      | nil => simp [GAction.isMelee, h]
      | cons c rest => simp [GAction.isMelee, h]
    · intro h1 h2
      exact absurd ⟨h1, h2⟩ h

/-- Witness for C1 (amended): a visible adjacent enemy attacks. -/
theorem C1_hostile_melee_amended_witness :
    hostilePerform ⟨(2, 3), (3, 3), true, [(9, 9)]⟩ (fun _ _ => []) =
      (GAction.melee 1 0, [(9, 9)]) := by
  exact (C1_hostile_melee_amended ⟨(2, 3), (3, 3), true, [(9, 9)]⟩
    (fun _ _ => [])).2 rfl (by decide)

/-- C6: on a hostile turn not resolved as melee, the path is recomputed
only under the visibility condition (when not visible the result does not
depend on the planner at all); a non-empty cached or fresh path has its
first cell popped and executed as a move toward that cell, and an empty
path yields a wait. -/
theorem C6_hostile_pursuit (s : HostileState)
    (plan plan2 : Cell → Cell → List Cell)
    (h : ¬ (s.visible = true ∧ chebyshev s ≤ 1)) :
    ((if s.visible then plan s.enemy s.player else s.path) = [] →
      hostilePerform s plan = (.waitTurn, [])) ∧
    (∀ c rest,
      (if s.visible then plan s.enemy s.player else s.path) = c :: rest →
      hostilePerform s plan =
        (.move (c.1 - s.enemy.1) (c.2 - s.enemy.2), rest)) ∧
    (s.visible = false → hostilePerform s plan = hostilePerform s plan2) := by
  refine ⟨?_, ?_, ?_⟩
  · intro hp
    rw [hostilePerform_eq, if_neg h, hp]
  · intro c rest hp
    rw [hostilePerform_eq, if_neg h, hp]
  · intro hv
    rw [hostilePerform_eq s plan, hostilePerform_eq s plan2, if_neg h, if_neg h,
      hv]
    simp

/-- Witness for C6: a non-visible enemy with a stale cached path moves
along it, independently of the planner. -/
theorem C6_hostile_pursuit_witness :
    hostilePerform ⟨(0, 0), (5, 5), false, [(1, 1), (2, 2)]⟩ (fun _ _ => []) =
      (GAction.move 1 1, [(2, 2)]) := by
  have h := C6_hostile_pursuit ⟨(0, 0), (5, 5), false, [(1, 1), (2, 2)]⟩
    (fun _ _ => []) (fun _ _ => [(7, 7)]) (by decide)
  exact h.2.1 (1, 1) [(2, 2)] (by decide)

/-- While the counter is still positive, every confused invocation just
decrements the counter: after k of N confused turns the actor holds the
same previous slot, the counter is N - k, and the log is untouched. -/
lemma aiIter_confused (choices : Nat → Fin 8) (name : String) (pos : Cell)
    (previous : Option AISlot) (log : List String) (N : Nat) :
    ∀ k, k ≤ N →
      aiIter choices ⟨name, pos, some (.confused previous (N : Int))⟩ log k =
        (⟨name, pos, some (.confused previous ((N : Int) - k))⟩, log) := by
  intro k
  induction k with
  | zero => intro _; simp [aiIter]
  | succ n ih =>
    intro hk
    have hn : n ≤ N := Nat.le_of_succ_le hk
    have hlt : (n : Int) < (N : Int) := by exact_mod_cast Nat.lt_of_succ_le hk
    have hpos : ¬ ((N : Int) - (n : Int) ≤ 0) := by omega
    have harith : (N : Int) - (n : Int) - 1 = (N : Int) - ((n : Nat) + 1 : Nat) := by
      push_cast
      ring
    rw [aiIter, ih hn]
    simp [aiStep, confusedPerform, hpos, harith]

/-- The invocation after the N decrementing turns restores the saved slot
and appends the expiry message. -/
lemma aiIter_confused_succ (choices : Nat → Fin 8) (name : String) (pos : Cell)
    (previous : Option AISlot) (log : List String) (N : Nat) :
    aiIter choices ⟨name, pos, some (.confused previous (N : Int))⟩ log (N + 1) =
      (⟨name, pos, previous⟩, log ++ [confusionExpiryMsg name]) := by
  rw [aiIter, aiIter_confused choices name pos previous log N N le_rfl]
  simp [aiStep, confusedPerform, confusionExpiryMsg]

/-- C3: a Confused-wander strategy with initial counter N at least 1
decrements the counter by exactly 1 on each of its first N invocations
and executes a Bump toward the direction drawn (by the uniformly random
index) from the eight-element compass list; on the invocation after those
N decrements the actor's slot is restored to exactly the previous
strategy captured at construction and the expiry message is emitted
exactly once (the log is untouched before and extended by exactly that
one message). The eight candidate directions are pairwise distinct, so a
uniform index gives a uniform direction. -/
theorem C3_confused_wander (choices : Nat → Fin 8) (name : String) (pos : Cell)
    (previous : AISlot) (log : List String) (N : Nat) (hN : 1 ≤ N) :
    (∀ k, k < N →
      (aiStep (aiIter choices (confusedActor name pos previous N) log k).1
          (aiIter choices (confusedActor name pos previous N) log k).2
          (choices k)).acted =
        some (.bump (confusedDirections.getD (choices k).val (0, 0)).1
          (confusedDirections.getD (choices k).val (0, 0)).2) ∧
      (aiIter choices (confusedActor name pos previous N) log (k + 1)).1.ai =
        some (.confused (some previous) ((N : Int) - ((k : Int) + 1)))) ∧
    (aiIter choices (confusedActor name pos previous N) log N).2 = log ∧
    (aiIter choices (confusedActor name pos previous N) log (N + 1)).1.ai =
      some previous ∧
    (aiIter choices (confusedActor name pos previous N) log (N + 1)).1.pos =
      pos ∧
    (aiIter choices (confusedActor name pos previous N) log (N + 1)).2 =
      log ++ [confusionExpiryMsg name] ∧
    confusedDirections.length = 8 ∧ confusedDirections.Nodup := by
    refine ⟨?_, ?_, ?_, ?_, ?_, by decide, by decide⟩
    · intro k hk
      have hk' : k ≤ N := Nat.le_of_lt hk
      have hlt : (k : Int) < (N : Int) := by exact_mod_cast hk
      have hpos : ¬ ((N : Int) - (k : Int) ≤ 0) := by omega
      constructor
      · rw [confusedActor,
          aiIter_confused choices name pos (some previous) log N k hk']
        simp [aiStep, confusedPerform, hpos]
      · rw [confusedActor,
          aiIter_confused choices name pos (some previous) log N (k + 1) hk]
        norm_num
    · rw [confusedActor,
        aiIter_confused choices name pos (some previous) log N N le_rfl]
    · rw [confusedActor, aiIter_confused_succ]
    · rw [confusedActor, aiIter_confused_succ]
    · rw [confusedActor, aiIter_confused_succ]

/-- Witness for C3: one confused turn then the restore, with previous
strategy id 7. -/
theorem C3_confused_wander_witness :
    (aiIter (fun _ => (0 : Fin 8)) (confusedActor "orc" (1, 1) (.strategy 7) 1)
        [] 2).1.ai = some (.strategy 7) ∧
    (aiIter (fun _ => (0 : Fin 8)) (confusedActor "orc" (1, 1) (.strategy 7) 1)
        [] 2).2 = [confusionExpiryMsg "orc"] := by
  have h := C3_confused_wander (fun _ => (0 : Fin 8)) "orc" (1, 1)
    (.strategy 7) [] 1 le_rfl
  exact ⟨h.2.2.1, h.2.2.2.2.1⟩

/-- C9: when ConfusedEnemy.perform runs with a non-positive counter, the
only state changes are restoring the actor's ai slot to the saved
previous value and appending the expiry message: no action of any kind is
executed and name and position are untouched.  Moreover, starting from
counter N the restore happens on invocation N + 1, not invocation N: at
invocation count N the slot is still the confused strategy (counter 0). -/
theorem C9_confused_frame (a : CActor) (previous : Option AISlot)
    (turns : Int) (log : List String) (choice : Fin 8) (h : turns ≤ 0)
    (choices : Nat → Fin 8) (name : String) (pos : Cell) (prev : AISlot)
    (N : Nat) (hN : 1 ≤ N) :
    confusedPerform a previous turns log choice =
      { actor := { a with ai := previous },
        log := log ++ [confusionExpiryMsg a.name], acted := none } ∧
    (aiIter choices (confusedActor name pos prev N) log N).1.ai =
      some (.confused (some prev) 0) ∧
    (aiIter choices (confusedActor name pos prev N) log N).2 = log ∧
    (aiIter choices (confusedActor name pos prev N) log (N + 1)).1.ai =
      some prev := by
  refine ⟨by simp [confusedPerform, h], ?_, ?_, ?_⟩
  · rw [confusedActor,
      aiIter_confused choices name pos (some prev) log N N le_rfl]
    simp
  · rw [confusedActor,
      aiIter_confused choices name pos (some prev) log N N le_rfl]
  · rw [confusedActor, aiIter_confused_succ]

/-- Witness for C9: an expired confusion restores the slot and emits the
message without acting. -/
theorem C9_confused_frame_witness :
    confusedPerform ⟨"orc", (4, 4), some (.confused (some (.strategy 3)) 0)⟩
        (some (.strategy 3)) 0 [] (0 : Fin 8) =
      { actor := ⟨"orc", (4, 4), some (.strategy 3)⟩,
        log := [confusionExpiryMsg "orc"], acted := none } := by
  have h := C9_confused_frame
    ⟨"orc", (4, 4), some (.confused (some (.strategy 3)) 0)⟩
    (some (.strategy 3)) 0 [] (0 : Fin 8) le_rfl (fun _ => (0 : Fin 8))
    "orc" (4, 4) (.strategy 3) 1 le_rfl
  simpa using h.1

/-- The entity loop never unblocks a cell: a zero cost stays zero. -/
lemma foldl_costStep_zero (c : Cell) :
    ∀ es : List PEntity, es.foldl (costStep c) 0 = 0 := by
  intro es
  induction es with
  | nil => rfl
  | cons e t ih => simpa [costStep] using ih

/-- Running the entity loop from a positive cost adds 10 per blocking
entity standing on the cell, as long as the int8 range is not left. -/
lemma foldl_costStep_count (c : Cell) :
    ∀ (es : List PEntity) (acc : Int), 1 ≤ acc →
      acc + 10 * (blockerCount es c : Int) ≤ 127 →
      es.foldl (costStep c) acc = acc + 10 * (blockerCount es c : Int) := by
  intro es
  induction es with
  | nil => intro acc h1 _; simp [blockerCount]
  | cons e t ih =>
    intro acc h1 h2
    by_cases hb : e.blocks = true ∧ e.pos = c
    · have hcount : (blockerCount (e :: t) c : Int) =
          (blockerCount t c : Int) + 1 := by
        simp [blockerCount, List.countP_cons, hb.1, hb.2]
      have hacc : acc ≠ 0 := by omega
      have hbound : acc + 10 * (blockerCount t c : Int) + 10 ≤ 127 := by
        rw [hcount] at h2; omega
      have hwrap : int8wrap (acc + 10) = acc + 10 := by
        have h10 : (0 : Int) ≤ 10 * (blockerCount t c : Int) := by positivity
        unfold int8wrap
        omega
      have hstep : costStep c acc e = acc + 10 := by
        simp [costStep, hb.1, hb.2, hacc, hwrap]
      rw [List.foldl_cons, hstep, ih (acc + 10) (by omega) (by omega), hcount]
      ring
    · have hstep : costStep c acc e = acc := by
        unfold costStep
        rw [if_neg]
        intro hcon
        exact hb ⟨hcon.1, hcon.2.1⟩
      have hcount : blockerCount (e :: t) c = blockerCount t c := by
        unfold blockerCount
        rw [List.countP_cons, if_neg]
        · ring
        · simp only [Bool.and_eq_true, decide_eq_true_eq]
          intro hcon
          exact hb hcon
      rw [List.foldl_cons, hstep, ih acc h1 (by rw [hcount] at h2; omega),
        hcount]

/-- Appending an adjacency step to a chain keeps it a chain. -/
lemma fwdChain_append (adj : Cell → List Cell) :
    ∀ (p : List Cell) (c n : Cell),
      fwdChain adj p → p.getLast? = some c → n ∈ adj c →
      fwdChain adj (p ++ [n])
  | [], c, n => by
    intro _ h _
    simp at h
  | [a], c, n => by
    intro _ h hn
    simp at h
    subst h
    exact ⟨hn, trivial⟩
  | a :: b :: t, c, n => by
    intro hch hlast hn
    obtain ⟨hab, hrest⟩ := hch
    exact ⟨hab, fwdChain_append adj (b :: t) c n hrest
      (by simpa [List.getLast?_cons_cons] using hlast) hn⟩

/-- Soundness of the bounded search: whatever path it returns starts at
the root carried by the queue invariant, ends at the goal, and is a chain
of adjacency steps. -/
lemma bfsAux_sound (adj : Cell → List Cell) (goal origin : Cell) :
    ∀ (fuel : Nat) (queue : List (List Cell)) (visited : List Cell)
      (r : List Cell),
      (∀ p ∈ queue, p.head? = some origin ∧ fwdChain adj p) →
      bfsAux adj goal fuel queue visited = some r →
      r.head? = some origin ∧ r.getLast? = some goal ∧ fwdChain adj r := by
  intro fuel
  induction fuel with
  | zero =>
    intro queue visited r _ hr
    simp [bfsAux] at hr
  | succ n ih =>
    intro queue visited r hq hr
    cases queue with
    | nil => simp [bfsAux] at hr
    | cons p rest =>
      rw [bfsAux] at hr
      cases hlast : p.getLast? with
      | none =>
        rw [hlast] at hr
        dsimp only at hr
        exact ih rest visited r (fun q hqq => hq q (List.mem_cons_of_mem p hqq))
          hr
      | some c =>
        rw [hlast] at hr
        dsimp only at hr
        by_cases hc : c = goal
        · rw [if_pos hc] at hr
          obtain ⟨hh, hch⟩ := hq p (List.mem_cons_self p rest)
          cases hr
          exact ⟨hh, by rw [hlast, hc], hch⟩
        · rw [if_neg hc] at hr
          by_cases hv : c ∈ visited
          · rw [if_pos hv] at hr
            exact ih rest visited r
              (fun q hqq => hq q (List.mem_cons_of_mem p hqq)) hr
          · rw [if_neg hv] at hr
            refine ih _ _ r ?_ hr
            intro q hqq
            rcases List.mem_append.mp hqq with h1 | h2
            · exact hq q (List.mem_cons_of_mem p h1)
            · obtain ⟨m, hm, rfl⟩ := List.mem_map.mp h2
              obtain ⟨hh, hch⟩ := hq p (List.mem_cons_self p rest)
              refine ⟨?_, fwdChain_append adj p c m hch hlast hm⟩
              cases p with
              | nil => simp at hlast
              | cons a t => simpa using hh

/-- Asking the pathfinder for the cell it starts on yields the singleton
sequence, so get_path_to drops it and returns the empty path. -/
lemma pathfinderPathTo_self (gm : GameMap) (es : List PEntity) (o : Cell) :
    pathfinderPathTo gm es o o = [o] := by
  obtain ⟨m, hm⟩ : ∃ m, searchFuel gm = m + 1 :=
    ⟨8 * (8 * gm.width * gm.height) + 63, by unfold searchFuel; ring⟩
  unfold pathfinderPathTo
  rw [hm, bfsAux]
  simp

/-- C4: the planner rebuilds the cost field from static walkability each
call, leaving unwalkable cells blocked at 0, keeping unoccupied walkable
cells at 1 and charging an occupied walkable cell 1 + 10 = 11; the
diagonal step cost 3 strictly exceeds the cardinal step cost 2; the path
returned runs from the cell after the origin through the destination
inclusive along graph steps, and it is empty when the origin equals the
destination or when no route exists at all. -/
theorem C4_path_planner (gm : GameMap) (es : List PEntity) (c o d : Cell) :
    (gm.walkable c = false → buildCost gm es c = 0) ∧
    (gm.walkable c = true → blockerCount es c = 0 → buildCost gm es c = 1) ∧
    (gm.walkable c = true → blockerCount es c = 1 → buildCost gm es c = 11) ∧
    cardinalCost < diagonalCost ∧
    (o = d → get_path_to gm es o d = []) ∧
    (get_path_to gm es o d ≠ [] →
      fwdChain (adjacentCells gm es) (o :: get_path_to gm es o d) ∧
      (o :: get_path_to gm es o d).getLast? = some d) ∧
    (¬ ReachableFrom (adjacentCells gm es) o d → get_path_to gm es o d = []) := by
  have hshape : get_path_to gm es o d ≠ [] →
      fwdChain (adjacentCells gm es) (o :: get_path_to gm es o d) ∧
      (o :: get_path_to gm es o d).getLast? = some d := by
    intro hne
    unfold get_path_to pathfinderPathTo at hne ⊢
    cases hbfs : bfsAux (adjacentCells gm es) d (searchFuel gm) [[o]] [] with
    | none =>
      rw [hbfs] at hne
      simp at hne
    | some p =>
      rw [hbfs] at hne
      dsimp only at hne ⊢
      have hsound := bfsAux_sound (adjacentCells gm es) d o (searchFuel gm)
        [[o]] [] p (by simp [fwdChain]) hbfs
      obtain ⟨hh, hl, hch⟩ := hsound
      cases p with
      | nil => simp at hh
      | cons a t =>
        have ha : a = o := by simpa using hh
        subst ha
        simp only [List.drop_succ_cons, List.drop_zero] at hne ⊢
        refine ⟨hch, ?_⟩
        cases t with
        | nil => simp at hne
        | cons b u => simpa [List.getLast?_cons_cons] using hl
  refine ⟨?_, ?_, ?_, by decide, ?_, hshape, ?_⟩
  · intro hw
    unfold buildCost
    rw [hw]
    simpa using foldl_costStep_zero c es
  · intro hw hc
    unfold buildCost
    rw [hw]
    simp only [if_pos]
    rw [foldl_costStep_count c es 1 le_rfl (by rw [hc]; norm_num), hc]
    norm_num
  · intro hw hc
    unfold buildCost
    rw [hw]
    simp only [if_pos]
    rw [foldl_costStep_count c es 1 le_rfl (by rw [hc]; norm_num), hc]
    norm_num
  · intro ho
    subst ho
    unfold get_path_to
    rw [pathfinderPathTo_self]
    rfl
  · intro hnr
    by_contra hne
    obtain ⟨hch, hl⟩ := hshape hne
    exact hnr ⟨get_path_to gm es o d, hch, hl⟩

/-- Witness for C4: on a fully walkable 2 by 1 map the cost of a free
cell is 1 and of an occupied cell 11, an unwalkable cell costs 0, the
path from a cell to itself is empty, and the path to the neighbour cell
steps through the graph and ends at the destination. -/
theorem C4_path_planner_witness :
    buildCost testMap [] (0, 0) = 1 ∧
    buildCost testMap [⟨(1, 0), true⟩] (1, 0) = 11 ∧
    buildCost testMapWall [] (1, 0) = 0 ∧
    get_path_to testMap [] (0, 0) (0, 0) = [] ∧
    (fwdChain (adjacentCells testMap [])
        ((0, 0) :: get_path_to testMap [] (0, 0) (1, 0)) ∧
      ((0, 0) :: get_path_to testMap [] (0, 0) (1, 0)).getLast? =
        some (1, 0)) := by
  refine ⟨?_, ?_, ?_, ?_, ?_⟩
  · exact (C4_path_planner testMap [] (0, 0) (0, 0) (0, 0)).2.1 rfl rfl
  · exact (C4_path_planner testMap [⟨(1, 0), true⟩] (1, 0) (0, 0) (0, 0)).2.2.1
      rfl (by decide)
  · exact (C4_path_planner testMapWall [] (1, 0) (0, 0) (0, 0)).1 (by decide)
  · exact (C4_path_planner testMap [] (0, 0) (0, 0) (0, 0)).2.2.2.2.1 rfl
  · exact (C4_path_planner testMap [] (0, 0) (0, 0) (1, 0)).2.2.2.2.2.1
      (by decide)

/-- C2: a player action failing with Impossible gets its message logged
and consumes no turn (handle_action returns false), with no enemy
behavior run and no visibility refresh; a succeeding action runs every
enemy behavior once, refreshes the field of view and returns true; the
next handler after a turn-consuming action is GameOver when the player is
dead, else LevelUp when a level up is pending, else MainGame, and the
handler is unchanged when no turn was consumed. -/
theorem C2_turn_resolution (e : GEngine) (act : PlayerAction) (msg : String)
    (e' : GEngine) :
    (act e = .error msg →
      handle_action e (some act) =
        ({ e with messageLog := e.messageLog ++ [msg] }, false)) ∧
    (act e = .ok e' →
      handle_action e (some act) =
        ({ e' with behaviorsRun := e'.behaviorsRun ++ e'.enemies,
                   fovRefreshes := e'.fovRefreshes + 1 }, true)) ∧
    (act e = .error msg → (handle_events e (some act)).2 = .unchanged) ∧
    (act e = .ok e' →
      (handle_events e (some act)).2 =
        (if e'.playerAlive = false then .gameOver
         else if e'.requiresLevelUp = true then .levelUp
         else .mainGame)) := by
  refine ⟨?_, ?_, ?_, ?_⟩
  · intro h
    simp [handle_action, h, add_message]
  · intro h
    simp [handle_action, h, update_fov, handle_enemy_turns]
  · intro h
    simp [handle_events, handle_action, h, add_message]
  · intro h
    simp only [handle_events, handle_action, h, update_fov, handle_enemy_turns]
    by_cases ha : e'.playerAlive
    · by_cases hl : e'.requiresLevelUp <;> simp [ha, hl]
    · simp [ha]

/-- Witness for C2: a failing pickup logs its message without a turn; a
trivial successful action runs both enemies, refreshes the fov and hands
control back to the main game handler. -/
theorem C2_turn_resolution_witness :
    handle_action engine0 (some actFail) =
      (⟨["Nothing here to pick up."], [1, 2], [], 0, true, false⟩, false) ∧
    handle_action engine0 (some actOk) =
      (⟨[], [1, 2], [1, 2], 1, true, false⟩, true) ∧
    (handle_events engine0 (some actOk)).2 = NextHandler.mainGame := by
  refine ⟨?_, ?_, ?_⟩
  · exact (C2_turn_resolution engine0 actFail "Nothing here to pick up."
      engine0).1 rfl
  · exact (C2_turn_resolution engine0 actOk "" engine0).2.1 rfl
  · have h := (C2_turn_resolution engine0 actOk "" engine0).2.2.2 rfl
    simpa [engine0] using h

/-- C5 counterexample: with 20 messages and the cursor at index 5,
PageUp steps past the top (5 - 10 < 0) but the cursor is clamped to 0
instead of wrapping to the bottom index 19. -/
theorem C5_history_counterexample :
    (5 : Int) + (-10) < 0 ∧
    histKeydown ⟨20, 5⟩ HistKey.pageup = (⟨20, 0⟩, false) ∧
    ((⟨20, 0⟩ : HistState).cursor ≠ (20 : Int) - 1) := by
  decide

/-- C5 (amended): Up/Down adjust the cursor by 1 and PageUp/PageDown by
10; wraparound happens only when the key is pressed with the cursor
exactly on the boundary — any upward key at index 0 wraps to
log_length - 1 and any downward key at index log_length - 1 wraps to 0 —
while every other movement clamps the target into [0, log_length - 1];
Home sets the cursor to 0 without a transition and End sets it to the
last index and transitions back to the main game handler. -/
theorem C5_history_keys (s : HistState) (k : HistKey) (adjust : Int) :
    (cursorAdjust k = some adjust → adjust < 0 → s.cursor = 0 →
      histKeydown s k = ({ s with cursor := s.log_length - 1 }, false)) ∧
    (cursorAdjust k = some adjust → 0 < adjust → s.cursor = s.log_length - 1 →
      histKeydown s k = ({ s with cursor := 0 }, false)) ∧
    (cursorAdjust k = some adjust → ¬ (adjust < 0 ∧ s.cursor = 0) →
      ¬ (0 < adjust ∧ s.cursor = s.log_length - 1) →
      histKeydown s k =
        ({ s with cursor := max 0 (min (s.cursor + adjust) (s.log_length - 1)) },
          false)) ∧
    (cursorAdjust HistKey.up = some (-1) ∧ cursorAdjust HistKey.down = some 1 ∧
      cursorAdjust HistKey.pageup = some (-10) ∧
      cursorAdjust HistKey.pagedown = some 10) ∧
    histKeydown s HistKey.home = ({ s with cursor := 0 }, false) ∧
    histKeydown s HistKey.endKey = ({ s with cursor := s.log_length - 1 }, true) := by
  refine ⟨?_, ?_, ?_, by decide, rfl, rfl⟩
  · intro hk h1 h2
    unfold histKeydown
    rw [hk]
    dsimp only
    rw [if_pos ⟨h1, h2⟩]
  · intro hk h1 h2
    unfold histKeydown
    rw [hk]
    dsimp only
    by_cases hneg : adjust < 0 ∧ s.cursor = 0
    · rw [if_pos hneg]
      have : s.cursor = 0 := hneg.2
      rw [this] at h2
      simp [← h2]
    · rw [if_neg hneg, if_pos ⟨h1, h2⟩]
  · intro hk h1 h2
    unfold histKeydown
    rw [hk]
    dsimp only
    rw [if_neg h1, if_neg h2]

/-- Witness for C5 (amended): in a 20-message log, Up at the top wraps to
19, Down at the bottom wraps to 0, and PageDown from 3 clamps to 13. -/
theorem C5_history_keys_witness :
    histKeydown ⟨20, 0⟩ HistKey.up = (⟨20, 19⟩, false) ∧
    histKeydown ⟨20, 19⟩ HistKey.down = (⟨20, 0⟩, false) ∧
    histKeydown ⟨20, 3⟩ HistKey.pagedown = (⟨20, 13⟩, false) := by
  refine ⟨?_, ?_, ?_⟩
  · exact (C5_history_keys ⟨20, 0⟩ HistKey.up (-1)).1 rfl (by decide) rfl
  · exact (C5_history_keys ⟨20, 19⟩ HistKey.down 1).2.1 rfl (by decide)
      (by decide)
  · have h := (C5_history_keys ⟨20, 3⟩ HistKey.pagedown 10).2.2.1 rfl
      (by decide) (by decide)
    simpa using h

/-- C7: in the target-selection handler the cursor step is the unit delta
times the product of the held-modifier factors (shift times 5, ctrl times
10, alt times 20, combining by multiplication, e.g. shift+ctrl gives 50),
and the resulting x and y are independently clamped into
[0, map width - 1] and [0, map height - 1]. -/
theorem C7_target_modifiers (s : TargetState) (dx dy : Int)
    (shift ctrl alt : Bool) :
    targetModifier shift ctrl alt =
      (if shift then 5 else 1) * (if ctrl then 10 else 1) *
        (if alt then 20 else 1) ∧
    targetModifier true true false = 50 ∧
    selectIndexMove s dx dy shift ctrl alt =
      (max 0 (min (s.mouse.1 + dx * targetModifier shift ctrl alt)
          (s.mapWidth - 1)),
        max 0 (min (s.mouse.2 + dy * targetModifier shift ctrl alt)
          (s.mapHeight - 1))) ∧
    (1 ≤ s.mapWidth →
      0 ≤ (selectIndexMove s dx dy shift ctrl alt).1 ∧
      (selectIndexMove s dx dy shift ctrl alt).1 ≤ s.mapWidth - 1) ∧
    (1 ≤ s.mapHeight →
      0 ≤ (selectIndexMove s dx dy shift ctrl alt).2 ∧
      (selectIndexMove s dx dy shift ctrl alt).2 ≤ s.mapHeight - 1) := by
  refine ⟨?_, by decide, rfl, ?_, ?_⟩
  · cases shift <;> cases ctrl <;> cases alt <;> decide
  · intro hw
    unfold selectIndexMove
    refine ⟨le_max_left 0 _, max_le ?_ (min_le_right _ _)⟩
    omega
  · intro hh
    unfold selectIndexMove
    refine ⟨le_max_left 0 _, max_le ?_ (min_le_right _ _)⟩
    omega

/-- Witness for C7: shift+ctrl from (0, 0) with delta (1, 0) moves the
cursor 50 cells right, clamped to the 80 by 50 map. -/
theorem C7_target_modifiers_witness :
    selectIndexMove ⟨(0, 0), 80, 50⟩ 1 0 true true false = (50, 0) ∧
    0 ≤ (selectIndexMove ⟨(0, 0), 80, 50⟩ 1 0 true true false).1 ∧
    (selectIndexMove ⟨(0, 0), 80, 50⟩ 1 0 true true false).1 ≤ 79 := by
  have h := C7_target_modifiers ⟨(0, 0), 80, 50⟩ 1 0 true true false
  have hb := h.2.2.2.1 (by decide)
  exact ⟨by decide, hb.1, hb.2⟩

/-- C8: with k items, letter index i < k (keycode 97 + i) selects exactly
the i-th item of the inventory list, the letter-to-position mapping is
injective (hence bijective onto the k positions), and any other letter of
a..z (position k..25) produces the invalid-entry message while keeping
the handler active: the outcome is invalidEntry, which the handler maps
to None (no transition) after logging. -/
theorem C8_inventory_letters {α : Type} (items : List α) (log : List String)
    (i j : Nat) :
    (∀ h : i < items.length, i ≤ 26 →
      inventoryKeydown items log (K_a + i) =
        (.selected (items.get ⟨i, h⟩), log)) ∧
    (items.length ≤ i → i ≤ 25 →
      inventoryKeydown items log (K_a + i) =
        (.invalidEntry, log ++ ["Invalid entry."])) ∧
    (K_a + (i : Int) = K_a + (j : Int) → i = j) := by
  refine ⟨?_, ?_, ?_⟩
  · intro h hi
    unfold inventoryKeydown
    have hidx : K_a + (i : Int) - K_a = (i : Int) := by ring
    rw [hidx]
    rw [if_pos ⟨Int.ofNat_nonneg i, by exact_mod_cast hi⟩]
    have htn : ((i : Int)).toNat = i := Int.toNat_ofNat i
    rw [htn, List.get?_eq_get h]
  · intro h hi
    unfold inventoryKeydown
    have hidx : K_a + (i : Int) - K_a = (i : Int) := by ring
    rw [hidx]
    rw [if_pos ⟨Int.ofNat_nonneg i, by exact_mod_cast Nat.le_trans hi (by norm_num)⟩]
    have htn : ((i : Int)).toNat = i := Int.toNat_ofNat i
    rw [htn, List.get?_eq_none.mpr h]
  · intro h
    omega

/-- Witness for C8: in a two-item inventory, letter a selects the first
item, letter b the second, and letter c is an invalid entry. -/
theorem C8_inventory_letters_witness :
    inventoryKeydown [10, 20] [] (K_a + (0 : Nat)) =
      (.selected 10, []) ∧
    inventoryKeydown [10, 20] [] (K_a + (1 : Nat)) =
      (.selected 20, []) ∧
    inventoryKeydown [10, 20] [] (K_a + (2 : Nat)) =
      (.invalidEntry, ["Invalid entry."]) := by
  refine ⟨?_, ?_, ?_⟩
  · exact (C8_inventory_letters [10, 20] [] 0 0).1 (by decide) (by decide)
  · exact (C8_inventory_letters [10, 20] [] 1 0).1 (by decide) (by decide)
  · exact (C8_inventory_letters [10, 20] [] 2 0).2.1 (by decide) (by decide)

/-- From an empty log the viewer state keeps log_length 0 and a cursor of
-1 or 0 under every key. -/
lemma hist_empty_invariant (s : HistState)
    (hr : HistReach (histInit ([] : List String)) s) :
    s.log_length = 0 ∧ (s.cursor = -1 ∨ s.cursor = 0) := by
  induction hr with
  | refl => exact ⟨rfl, Or.inl rfl⟩
  | @step s' k _ ih =>
    obtain ⟨hl, hc⟩ := ih
    have hs : s' = ⟨0, -1⟩ ∨ s' = ⟨0, 0⟩ := by
      rcases hc with h | h
      · left; cases s'; simp_all
      · right; cases s'; simp_all
    rcases hs with h | h <;> rw [h] <;> cases k <;> decide

/-- C10: a history viewer built over an empty message log starts with
cursor -1 (log_length - 1 with log_length 0); the next Up or Down press
sets the cursor to 0 rather than wrapping anywhere else; and for every
state the handler can reach, the cursor stays in {-1, 0} and the rendered
slice messages[: cursor + 1] is within bounds (here the empty list), so
rendering never reads out of bounds. -/
theorem C10_history_empty_log (s : HistState)
    (hr : HistReach (histInit ([] : List String)) s) :
    histInit ([] : List String) = ⟨0, -1⟩ ∧
    (histKeydown ⟨0, -1⟩ HistKey.up).1.cursor = 0 ∧
    (histKeydown ⟨0, -1⟩ HistKey.down).1.cursor = 0 ∧
    (s.cursor = -1 ∨ s.cursor = 0) ∧
    renderSlice [] s.cursor = [] ∧
    (renderSlice [] s.cursor).length ≤ ([] : List String).length := by
  have h := hist_empty_invariant s hr
  refine ⟨by decide, by decide, by decide, h.2, ?_, ?_⟩
  · simp [renderSlice]
  · simp [renderSlice]

/-- Witness for C10: the freshly constructed viewer over an empty log. -/
theorem C10_history_empty_log_witness :
    (histInit ([] : List String)).cursor = -1 ∧
    renderSlice [] (histInit ([] : List String)).cursor = [] ∧
    (histKeydown ⟨0, -1⟩ HistKey.up).1.cursor = 0 := by
  have h := C10_history_empty_log (histInit ([] : List String)) HistReach.refl
  exact ⟨by decide, h.2.2.2.2.1, h.2.1⟩

end Dangen
